import Mathlib

/-!
# Verification of the CloudWatch Logs log-group poller

A shallow embedding of the snapshot-poller code for CloudWatch Logs log
groups (`describeLogGroups`, `getLogGroup`, `listTagsLogGroup`,
`buildCloudWatchLogsLogGroupSnapshot`, `PollCloudWatchLogsLogGroup`,
`PollCloudWatchLogsLogGroups`), together with a model of the bounded LRU
caches described by the design document.

The AWS SDK pagination contract is modelled by a list of pages together
with an optional trailing fetch error: `DescribeLogGroupsPages` starting
from token `i` delivers pages `i, i+1, ...` in order; page `i` carries
next-page token `i+1` whenever it is not the last page, and the callback
receives `lastPage = true` exactly on the final page of a healthy
sequence.  A provider whose `errTail` is `some m` fails the fetch that
follows its listed pages (throttling / timeout / 5xx), which is how the
SDK surfaces a mid-pagination provider error.

Machine integers: `CreationTime` is a Go `int64` holding a
millisecond-epoch timestamp; Go's `/ 1000` truncates toward zero, which
is `Int.tdiv` here.  No arithmetic in the modelled code can overflow an
`int64` (division only shrinks magnitudes), so `Int` is used directly.
-/

/-- A raw CloudWatch Logs log group as returned by the provider.
Pointer-typed fields that the code dereferences unconditionally
(`LogGroupName`, `Arn`, `CreationTime`) are modelled as plain values;
fields kept as pointers by the code stay `Option`. -/
structure LogGroup where
  logGroupName : String
  arn : String
  /-- Millisecond-epoch creation time (`*int64` in the source, dereferenced). -/
  creationTime : Int
  kmsKeyId : Option String
  metricFilterCount : Option Int
  retentionInDays : Option Int
  storedBytes : Option Int
deriving DecidableEq, Repr

/-- The slice of `cloudwatchlogsiface.CloudWatchLogsAPI` the code uses.
`pages`/`errTail` drive `DescribeLogGroupsPages`; `byNameFilter` is the
single-shot `DescribeLogGroups` call with `LogGroupNamePrefix` (its result
is whatever the provider returns for the name-filtered query); `tagsFor`
is `ListTagsLogGroup`. -/
structure CloudWatchLogsAPI where
  pages : List (List LogGroup)
  errTail : Option String
  byNameFilter : String → Except String (List LogGroup)
  tagsFor : String → Except String (List (String × String))

/-- Error wrapping applied by `describeLogGroups`
(`errors.Wrap(err, "CloudWatchLogs.DescribeLogGroups")`). -/
def wrapDescribeErr (m : String) : String :=
  "CloudWatchLogs.DescribeLogGroups: " ++ m

/-- The next-page token the provider attaches to page `i`: present while
further pages (or a failing fetch) remain, absent on the last page of a
healthy sequence. -/
def pageNextToken (svc : CloudWatchLogsAPI) (i : Nat) : Option Nat :=
  if i + 1 < svc.pages.length ∨ (i + 1 = svc.pages.length ∧ svc.errTail.isSome) then
    some (i + 1)
  else none

/-- The page-accumulation loop of `describeLogGroups`: the SDK invokes the
callback once per fetched page; the callback appends the page, and once the
accumulated count reaches the batch ceiling it records the page's next-page
token (unless this was the last page) and stops.  A trailing provider error
(`e = some m`) makes the whole call return `(nil, nil, err)`. -/
def pagesLoop (b : Nat) (e : Option String) :
    List (List LogGroup) → Nat → List LogGroup →
    List LogGroup × Option Nat × Option String
  | [], _, acc =>
    match e with
    | some m => ([], none, some (wrapDescribeErr m))
    | none => (acc, none, none)
  | p :: rest, idx, acc =>
    let acc2 := acc ++ p
    let lastPage := rest.isEmpty && e.isNone
    if b ≤ acc2.length then
      (acc2, if lastPage then none else some (idx + 1), none)
    else if lastPage then
      (acc2, none, none)
    else
      pagesLoop b e rest (idx + 1) acc2

/-- `describeLogGroups`: paginate from `nextMarker` (absent = start),
accumulating whole pages until the provider is exhausted or the batch
ceiling `b` (the source's `defaultBatchSize`, a constant declared outside
the sampled files, hence a parameter here) is reached.  Returns
`(logGroups, marker, err)` exactly as the Go function does. -/
def describeLogGroups (b : Nat) (svc : CloudWatchLogsAPI) (nextMarker : Option Nat) :
    List LogGroup × Option Nat × Option String :=
  pagesLoop b svc.errTail (svc.pages.drop (nextMarker.getD 0)) (nextMarker.getD 0) []

/-- A token-chained sequence of `describeLogGroups` invocations: run once,
and while a continuation token comes back, run again from that token,
concatenating the batches.  `fuel` bounds the recursion; any value larger
than the page count suffices. -/
def chainEnum (b : Nat) (svc : CloudWatchLogsAPI) :
    Nat → Option Nat → List LogGroup × Option String
  | 0, _ => ([], some "chain fuel exhausted")
  | fuel + 1, tok =>
    match describeLogGroups b svc tok with
    | (_, _, some e) => ([], some e)
    | (items, none, none) => (items, none)
    | (items, some t, none) =>
      match chainEnum b svc fuel (some t) with
      | (more, none) => (items ++ more, none)
      | (_, some e) => ([], some e)

/-- A service with the given pages and trailing error, and inert
name-filter / tag endpoints; used for concrete instances. -/
def stubSvc (pages : List (List LogGroup)) (e : Option String) : CloudWatchLogsAPI :=
  { pages := pages, errTail := e
    byNameFilter := fun _ => .ok []
    tagsFor := fun _ => .ok [] }

/-- A concrete log group used in witnesses. -/
def sampleLogGroup : LogGroup :=
  { logGroupName := "sample", arn := "arn:aws:logs:::log-group:sample"
    creationTime := 1583020800123, kmsKeyId := none
    metricFilterCount := none, retentionInDays := none, storedBytes := none }

/-- Full characterization of a `pagesLoop` run: it either reaches a true
last page having never hit the ceiling at an earlier page (no token), or
stops early at the first page where the accumulated count reaches the
ceiling (token = that page's successor index), or runs into the trailing
provider error and reports `(nil, nil, err)`. -/
theorem pagesLoop_spec (b : Nat) (e : Option String) :
    ∀ (rest : List (List LogGroup)) (idx : Nat) (acc : List LogGroup),
      (e = none ∧ pagesLoop b e rest idx acc = (acc ++ rest.flatten, none, none) ∧
        ∀ j, j + 1 < rest.length → acc.length + ((rest.take (j + 1)).flatten).length < b)
      ∨ (∃ k, k < rest.length ∧ (k + 1 < rest.length ∨ e.isSome) ∧
          pagesLoop b e rest idx acc =
            (acc ++ (rest.take (k + 1)).flatten, some (idx + k + 1), none) ∧
          b ≤ acc.length + ((rest.take (k + 1)).flatten).length ∧
          ∀ j, j < k → acc.length + ((rest.take (j + 1)).flatten).length < b)
      ∨ (∃ m, e = some m ∧ pagesLoop b e rest idx acc = ([], none, some (wrapDescribeErr m)) ∧
          ∀ j, j < rest.length → acc.length + ((rest.take (j + 1)).flatten).length < b) := by
  intro rest
  induction rest with
  | nil =>
    intro idx acc
    match he : e with
    | none =>
      left
      refine ⟨rfl, by simp [pagesLoop], ?_⟩
      intro j hj; simp at hj
    | some m =>
      right; right
      exact ⟨m, rfl, by simp [pagesLoop], by intro j hj; simp at hj⟩
  | cons p rest ih =>
    intro idx acc
    have htk1 : ((p :: rest).take 1).flatten = p := by simp
    cases hlp : rest.isEmpty && e.isNone with
    | true =>
      -- this is the true last page of a healthy sequence
      have hrest : rest = [] := by
        cases rest with
        | nil => rfl
        | cons q qs => simp at hlp
      have he : e = none := by
        cases e with
        | none => rfl
        | some m => simp [hrest] at hlp
      subst hrest; subst he
      left
      refine ⟨rfl, ?_, ?_⟩
      · by_cases hb : b ≤ (acc ++ p).length <;> simp [pagesLoop, hb]
      · intro j hj; simp at hj
    | false =>
      have hside0 : 0 + 1 < (p :: rest).length ∨ e.isSome = true := by
        cases rest with
        | cons q qs => left; simp
        | nil =>
          cases e with
          | some m => right; rfl
          | none => simp at hlp
      by_cases hb : b ≤ (acc ++ p).length
      · -- ceiling reached at this page, which is not the last: stop with a token
        right; left
        refine ⟨0, by simp, hside0, ?_, ?_, ?_⟩
        · simp [pagesLoop, hb, hlp]
          exact fun h => absurd hb (by simp only [List.length_append]; omega)
        · rw [htk1]
          simpa using hb
        · intro j hj; omega
      · -- ceiling not reached: the loop continues into `rest`
        have hstep : pagesLoop b e (p :: rest) idx acc =
            pagesLoop b e rest (idx + 1) (acc ++ p) := by
          simp [pagesLoop, hb, hlp]
          exact fun h => absurd h (by simp only [List.length_append] at hb; omega)
        have hblt : acc.length + p.length < b := by
          simp only [List.length_append] at hb; omega
        rcases ih (idx + 1) (acc ++ p) with
          ⟨he, hres, hmin⟩ | ⟨k, hk, hside, hres, hge, hmin⟩ | ⟨m, he, hres, hmin⟩
        · left
          refine ⟨he, ?_, ?_⟩
          · rw [hstep, hres]; simp
          · intro j hj
            cases j with
            | zero => rw [htk1]; exact hblt
            | succ j' =>
              have hj' := hmin j' (by simpa using hj)
              have h2 : (p :: rest).take (j' + 1 + 1) = p :: rest.take (j' + 1) := rfl
              simp only [h2, List.flatten_cons, List.length_append]
              simp only [List.length_append] at hj'
              omega
        · right; left
          refine ⟨k + 1, by simpa using hk, ?_, ?_, ?_, ?_⟩
          · rcases hside with h | h
            · left; simpa using h
            · right; exact h
          · rw [hstep, hres]
            have h1 : (p :: rest).take (k + 1 + 1) = p :: rest.take (k + 1) := rfl
            simp only [h1, List.flatten_cons, Prod.mk.injEq]
            refine ⟨by simp, by simp only [Option.some.injEq]; omega, trivial⟩
          · have h1 : (p :: rest).take (k + 1 + 1) = p :: rest.take (k + 1) := rfl
            simp only [h1, List.flatten_cons, List.length_append]
            simp only [List.length_append] at hge
            omega
          · intro j hj
            cases j with
            | zero => rw [htk1]; exact hblt
            | succ j' =>
              have hj' := hmin j' (by omega)
              have h2 : (p :: rest).take (j' + 1 + 1) = p :: rest.take (j' + 1) := rfl
              simp only [h2, List.flatten_cons, List.length_append]
              simp only [List.length_append] at hj'
              omega
        · right; right
          refine ⟨m, he, ?_, ?_⟩
          · rw [hstep, hres]
          · intro j hj
            cases j with
            | zero => rw [htk1]; exact hblt
            | succ j' =>
              have hj' := hmin j' (by simpa using hj)
              have h2 : (p :: rest).take (j' + 1 + 1) = p :: rest.take (j' + 1) := rfl
              simp only [h2, List.flatten_cons, List.length_append]
              simp only [List.length_append] at hj'
              omega

/-- A token-chained sequence of polls with enough fuel returns every log
group from the resumption point onward, in provider order. -/
theorem chainEnum_spec (b : Nat) (svc : CloudWatchLogsAPI) (he : svc.errTail = none) :
    ∀ (fuel : Nat) (tok : Option Nat), svc.pages.length - tok.getD 0 < fuel →
      chainEnum b svc fuel tok = ((svc.pages.drop (tok.getD 0)).flatten, none) := by
  intro fuel
  induction fuel with
  | zero => intro tok h; omega
  | succ f ih =>
    intro tok h
    have hdesc : describeLogGroups b svc tok =
        pagesLoop b none (svc.pages.drop (tok.getD 0)) (tok.getD 0) [] := by
      rw [describeLogGroups, he]
    rcases pagesLoop_spec b none (svc.pages.drop (tok.getD 0)) (tok.getD 0) [] with
      ⟨_, hres, _⟩ | ⟨k, hk, _, hres, _, _⟩ | ⟨m, hm, _, _⟩
    · simp only [chainEnum, hdesc, hres, List.nil_append]
    · have hklen : k < svc.pages.length - tok.getD 0 := by
        simpa using hk
      have hrec := ih (some (tok.getD 0 + k + 1)) (by simp only [Option.getD_some]; omega)
      simp only [Option.getD_some] at hrec
      have hsplit : ((svc.pages.drop (tok.getD 0)).take (k + 1)).flatten ++
          (svc.pages.drop (tok.getD 0 + k + 1)).flatten =
          (svc.pages.drop (tok.getD 0)).flatten := by
        have h3 : (svc.pages.drop (tok.getD 0)).drop (k + 1) =
            svc.pages.drop (tok.getD 0 + k + 1) := by
          rw [List.drop_drop]; try congr 1; try omega
        conv_rhs => rw [← List.take_append_drop (k + 1) (svc.pages.drop (tok.getD 0))]
        rw [List.flatten_append, h3]
      simp only [chainEnum, hdesc, hres, List.nil_append, hrec, hsplit]
    · exact absurd hm (by simp)

/-- C1: enumerating through a chain of continuation-token-linked
`describeLogGroups` invocations (each resumed from the previous token,
until the token is absent) returns exactly the concatenation of all
provider pages — the same items, with no duplicate and no omission, as a
single enumeration whose ceiling exceeds the total item count. -/
theorem chain_resumption_complete (b : Nat) (svc : CloudWatchLogsAPI)
    (hb : 0 < b) (he : svc.errTail = none) :
    chainEnum b svc (svc.pages.length + 1) none = (svc.pages.flatten, none) ∧
    describeLogGroups (svc.pages.flatten.length + 1) svc none =
      (svc.pages.flatten, none, none) := by
  constructor
  · have h := chainEnum_spec b svc he (svc.pages.length + 1) none (by simp)
    simpa using h
  · have hdesc : describeLogGroups (svc.pages.flatten.length + 1) svc none =
        pagesLoop (svc.pages.flatten.length + 1) none (svc.pages.drop 0) 0 [] := by
      rw [describeLogGroups, he]; rfl
    rcases pagesLoop_spec (svc.pages.flatten.length + 1) none (svc.pages.drop 0) 0 [] with
      ⟨_, hres, _⟩ | ⟨k, hk, _, hres, hge, _⟩ | ⟨m, hm, _, _⟩
    · rw [hdesc, hres]; simp
    · exfalso
      have hle : ((svc.pages.take (k + 1)).flatten).length ≤ svc.pages.flatten.length := by
        conv_rhs => rw [← List.take_append_drop (k + 1) svc.pages]
        rw [List.flatten_append, List.length_append]
        omega
      simp only [List.drop_zero, List.length_nil, Nat.zero_add] at hge
      omega
    · exact absurd hm (by simp)

/-- Witness for C1 at a concrete input: three one-item pages, ceiling 2. -/
theorem chain_resumption_complete_witness :
    chainEnum 2 (stubSvc [[sampleLogGroup], [sampleLogGroup], [sampleLogGroup]] none) 4 none =
      ([sampleLogGroup, sampleLogGroup, sampleLogGroup], none) ∧
    describeLogGroups 4 (stubSvc [[sampleLogGroup], [sampleLogGroup], [sampleLogGroup]] none)
      none = ([sampleLogGroup, sampleLogGroup, sampleLogGroup], none, none) := by
  have h := chain_resumption_complete 2
    (stubSvc [[sampleLogGroup], [sampleLogGroup], [sampleLogGroup]] none)
    (by norm_num) rfl
  exact ⟨h.1, h.2⟩

/-- C2: on a successful run of `describeLogGroups`, the continuation
token is present exactly when the accumulated count reached the batch
ceiling at a page that was not the provider's last (so enumeration
stopped mid-stream), and in that case the token is precisely the
provider's next-page token of the page at which the ceiling was reached;
when the provider signals no more pages the token is absent. -/
theorem describeLogGroups_token_spec (b : Nat) (svc : CloudWatchLogsAPI)
    (items : List LogGroup) (tok : Option Nat)
    (hrun : describeLogGroups b svc none = (items, tok, none)) :
    (tok = none →
      svc.errTail = none ∧ items = svc.pages.flatten ∧
      ∀ j, j + 1 < svc.pages.length → ((svc.pages.take (j + 1)).flatten).length < b) ∧
    (∀ t, tok = some t → ∃ k, k < svc.pages.length ∧
      b ≤ ((svc.pages.take (k + 1)).flatten).length ∧
      (∀ j, j < k → ((svc.pages.take (j + 1)).flatten).length < b) ∧
      some t = pageNextToken svc k ∧
      items = (svc.pages.take (k + 1)).flatten) := by
  have hdesc : describeLogGroups b svc none =
      pagesLoop b svc.errTail (svc.pages.drop 0) 0 [] := rfl
  rcases pagesLoop_spec b svc.errTail (svc.pages.drop 0) 0 [] with
    ⟨he, hres, hmin⟩ | ⟨k, hk, hside, hres, hge, hmin⟩ | ⟨m, hm, hres, hmin⟩
  · have heq := hrun.symm.trans (hdesc.trans hres)
    simp only [List.drop_zero, List.nil_append, Prod.mk.injEq] at heq
    obtain ⟨hitems, htok, -⟩ := heq
    constructor
    · intro _
      refine ⟨he, hitems, ?_⟩
      intro j hj
      have := hmin j (by simpa using hj)
      simpa using this
    · intro t ht
      rw [htok] at ht
      exact absurd ht (by simp)
  · have heq := hrun.symm.trans (hdesc.trans hres)
    simp only [List.drop_zero, List.nil_append, Prod.mk.injEq, Nat.zero_add] at heq
    obtain ⟨hitems, htok, -⟩ := heq
    simp only [List.drop_zero] at hk hside hge hmin
    constructor
    · intro hn; rw [hn] at htok; exact absurd htok (by simp)
    · intro t ht
      rw [ht] at htok
      refine ⟨k, hk, by simpa using hge, ?_, ?_, hitems⟩
      · intro j hj
        have := hmin j hj
        simpa using this
      · rw [pageNextToken, if_pos]
        · simpa using htok
        · rcases hside with h | h
          · exact Or.inl h
          · by_cases hlt : k + 1 < svc.pages.length
            · exact Or.inl hlt
            · exact Or.inr ⟨by omega, h⟩
  · have heq := hrun.symm.trans (hdesc.trans hres)
    simp only [Prod.mk.injEq] at heq
    exact absurd heq.2.2 (by simp)

/-- Witness for C2: two one-item pages, ceiling 1 — the run stops after
the first page with token `some 1`, and the theorem recovers the
ceiling/stop-page characterization of that token. -/
theorem describeLogGroups_token_spec_witness :
    ∃ k, k < (stubSvc [[sampleLogGroup], [sampleLogGroup]] none).pages.length ∧
      1 ≤ (((stubSvc [[sampleLogGroup], [sampleLogGroup]] none).pages.take (k + 1)).flatten).length ∧
      (∀ j, j < k →
        (((stubSvc [[sampleLogGroup], [sampleLogGroup]] none).pages.take (j + 1)).flatten).length < 1) ∧
      some 1 = pageNextToken (stubSvc [[sampleLogGroup], [sampleLogGroup]] none) k ∧
      [sampleLogGroup] =
        ((stubSvc [[sampleLogGroup], [sampleLogGroup]] none).pages.take (k + 1)).flatten :=
  (describeLogGroups_token_spec 1 (stubSvc [[sampleLogGroup], [sampleLogGroup]] none)
    [sampleLogGroup] (some 1) rfl).2 1 rfl

/-- C3: a successful enumeration returns a concatenation of whole pages
in provider order — always some prefix of the page sequence, never a page
split in the middle — stopping only after the first page at which the
accumulated count reached the ceiling; and the final appended page may
push the returned count beyond the ceiling (concrete overshoot: one page
of two items against ceiling 1 returns both items). -/
theorem describeLogGroups_whole_pages :
    (∀ (b : Nat) (svc : CloudWatchLogsAPI) (items : List LogGroup) (tok : Option Nat),
      svc.errTail = none →
      describeLogGroups b svc none = (items, tok, none) →
      ∃ m, m ≤ svc.pages.length ∧ items = (svc.pages.take m).flatten ∧
        ∀ j, j + 1 < m → ((svc.pages.take (j + 1)).flatten).length < b) ∧
    (describeLogGroups 1 (stubSvc [[sampleLogGroup, sampleLogGroup]] none) none =
      ([sampleLogGroup, sampleLogGroup], none, none) ∧
      1 < [sampleLogGroup, sampleLogGroup].length) := by
  constructor
  · intro b svc items tok he hrun
    have hdesc : describeLogGroups b svc none =
        pagesLoop b svc.errTail (svc.pages.drop 0) 0 [] := rfl
    rcases pagesLoop_spec b svc.errTail (svc.pages.drop 0) 0 [] with
      ⟨-, hres, hmin⟩ | ⟨k, hk, -, hres, -, hmin⟩ | ⟨m, hm, -, -⟩
    · have heq := hrun.symm.trans (hdesc.trans hres)
      simp only [List.drop_zero, List.nil_append, Prod.mk.injEq] at heq
      refine ⟨svc.pages.length, le_refl _, by rw [heq.1, List.take_length], ?_⟩
      intro j hj
      have := hmin j (by simpa using hj)
      simpa using this
    · have heq := hrun.symm.trans (hdesc.trans hres)
      simp only [List.drop_zero, List.nil_append, Prod.mk.injEq, Nat.zero_add] at heq
      simp only [List.drop_zero] at hk hmin
      refine ⟨k + 1, by omega, heq.1, ?_⟩
      intro j hj
      have := hmin j (by omega)
      simpa using this
    · rw [he] at hm
      exact absurd hm (by simp)
  · exact ⟨rfl, by norm_num⟩

/-- `strings.TrimPrefix(s, pat)`: drop `pat` from the front of `s` when it
starts with `pat`, otherwise return `s` unchanged (computed on the
character list so it evaluates by kernel reduction). -/
def trimLeading (s pat : String) : String :=
  if pat.data.isPrefixOf s.data then ⟨s.data.drop pat.data.length⟩ else s

/-- `strings.Split(s, ":")[0]`: the characters of `s` before its first
colon (the whole of `s` when it has none). -/
def headField (s : String) : String :=
  ⟨s.data.takeWhile (fun c => c != ':')⟩

/-- The fields of `arn.ARN` that `PollCloudWatchLogsLogGroup` reads. -/
structure ARN where
  region : String
  accountID : String
  resource : String
deriving DecidableEq, Repr

/-- The log-group name extracted from a resource ARN: strip the
`log-group:` resource-type marker, then keep everything before the first
`:` (dropping any additional modifiers). -/
def logGroupNameOfARN (a : ARN) : String :=
  headField (trimLeading a.resource "log-group:")

/-- The schema constant `awsmodels.CloudWatchLogGroupSchema` (declared
outside the sampled files; its exact text is irrelevant to the claims). -/
def cloudWatchLogGroupSchema : String := "AWS.CloudWatchLogs.LogGroup"

/-- The canonical snapshot `awsmodels.CloudWatchLogsLogGroup`.
`timeCreated` holds the second-precision epoch value handed to
`utils.UnixTimeToDateTime` (that conversion, declared outside the sampled
files, is injective on seconds, so the seconds value represents it). -/
structure CloudWatchLogsLogGroup where
  resourceID : String
  resourceType : String
  timeCreated : Int
  name : String
  arn : String
  kmsKeyId : Option String
  metricFilterCount : Option Int
  retentionInDays : Option Int
  storedBytes : Option Int
  tags : List (String × String)
  region : Option String
  accountID : Option String
deriving DecidableEq, Repr

/-- `getLogGroup`: query the provider with the name as a name filter
(`LogGroupNamePrefix`), then return the first returned group whose
`LogGroupName` equals the requested name exactly; `(nil, nil)` when no
returned group matches exactly; the wrapped error when the query fails. -/
def getLogGroup (svc : CloudWatchLogsAPI) (logGroupName : String) :
    Except String (Option LogGroup) :=
  match svc.byNameFilter logGroupName with
  | .error e => .error ("CloudWatchLogs.DescribeLogGroups: " ++ e)
  | .ok logGroups => .ok (logGroups.find? (fun lg => lg.logGroupName == logGroupName))

/-- `listTagsLogGroup`: fetch the tags of one log group, wrapping a
provider failure. -/
def listTagsLogGroup (svc : CloudWatchLogsAPI) (groupName : String) :
    Except String (List (String × String)) :=
  match svc.tagsFor groupName with
  | .error e => .error ("CloudWatchLogs ListTagsLogGroup: " ++ e)
  | .ok tags => .ok tags

/-- `buildCloudWatchLogsLogGroupSnapshot`: populate the canonical shape
from the raw log group (converting the millisecond creation time to
seconds, truncating), then fetch the group's tags; a tag-fetch failure
fails the whole build. -/
def buildCloudWatchLogsLogGroupSnapshot (svc : CloudWatchLogsAPI) (logGroup : LogGroup) :
    Except String CloudWatchLogsLogGroup :=
  let logGroupSnapshot : CloudWatchLogsLogGroup :=
    { resourceID := logGroup.arn
      resourceType := cloudWatchLogGroupSchema
      -- Convert milliseconds to seconds before converting to datetime
      -- (sub-second precision is dropped; Go division truncates toward zero)
      timeCreated := Int.tdiv logGroup.creationTime 1000
      name := logGroup.logGroupName
      arn := logGroup.arn
      kmsKeyId := logGroup.kmsKeyId
      metricFilterCount := logGroup.metricFilterCount
      retentionInDays := logGroup.retentionInDays
      storedBytes := logGroup.storedBytes
      tags := []
      region := none
      accountID := none }
  match listTagsLogGroup svc logGroupSnapshot.name with
  | .error e => .error e
  | .ok tags => .ok { logGroupSnapshot with tags := tags }

/-- `PollCloudWatchLogsLogGroup`: poll a single log group named by its
ARN.  A `(nil, nil)` outcome from `getLogGroup` (group vanished) is
returned as `(nil, nil)`; errors propagate; otherwise the snapshot is
completed with the ARN's region and account. -/
def PollCloudWatchLogsLogGroup (svc : CloudWatchLogsAPI) (resourceARN : ARN) :
    Except String (Option CloudWatchLogsLogGroup) :=
  match getLogGroup svc (logGroupNameOfARN resourceARN) with
  | .error e => .error e
  | .ok none => .ok none
  | .ok (some logGroup) =>
    match buildCloudWatchLogsLogGroupSnapshot svc logGroup with
    | .error e => .error e
    | .ok snapshot =>
      .ok (some { snapshot with
                    region := some resourceARN.region
                    accountID := some resourceARN.accountID })

/-- The fields of `awsmodels.ResourcePollerInput` the code reads. -/
structure ResourcePollerInput where
  region : String
  accountID : String
  integrationID : String
  nextPageToken : Option Nat
deriving DecidableEq, Repr

/-- `apimodels.AddResourceEntry` as assembled by the poller. -/
structure AddResourceEntry where
  attributes : CloudWatchLogsLogGroup
  id : String
  integrationID : String
  integrationType : String
  type : String
deriving DecidableEq, Repr

/-- The per-item normalization loop of `PollCloudWatchLogsLogGroups`:
build each snapshot in order, stamp account/region, and wrap it into an
`AddResourceEntry`; the first failing item aborts the whole loop. -/
def snapshotEntries (svc : CloudWatchLogsAPI) (pollerInput : ResourcePollerInput) :
    List LogGroup → Except String (List AddResourceEntry)
  | [] => .ok []
  | logGroup :: rest =>
    match buildCloudWatchLogsLogGroupSnapshot svc logGroup with
    | .error e => .error e
    | .ok snapshot =>
      let snapshot2 := { snapshot with
                           accountID := some pollerInput.accountID
                           region := some pollerInput.region }
      match snapshotEntries svc pollerInput rest with
      | .error e => .error e
      | .ok entries =>
        .ok ({ attributes := snapshot2
               id := snapshot2.resourceID
               integrationID := pollerInput.integrationID
               integrationType := "aws"
               type := cloudWatchLogGroupSchema } :: entries)

/-- `PollCloudWatchLogsLogGroups`: enumerate one batch of log groups from
the stored continuation token, normalize each, and return
`(resources, marker, err)` exactly as the Go function does — any failure
yields `(nil, nil, err)`. -/
def PollCloudWatchLogsLogGroups (svc : CloudWatchLogsAPI) (b : Nat)
    (pollerInput : ResourcePollerInput) :
    List AddResourceEntry × Option Nat × Option String :=
  match describeLogGroups b svc pollerInput.nextPageToken with
  | (_, _, some e) => ([], none, some e)
  | (logGroups, marker, none) =>
    match snapshotEntries svc pollerInput logGroups with
    | .error e => ([], none, some e)
    | .ok resources => (resources, marker, none)

/-- A log group whose name properly extends the name `abc`. -/
def gAbcDef : LogGroup :=
  { logGroupName := "abc-def", arn := "arn:aws:logs:::log-group:abc-def"
    creationTime := 0, kmsKeyId := none
    metricFilterCount := none, retentionInDays := none, storedBytes := none }

/-- A service whose name-filtered describe always returns the single
proper-extension match `gAbcDef`. -/
def svcNameFilter : CloudWatchLogsAPI :=
  { pages := [], errTail := none
    byNameFilter := fun _ => .ok [gAbcDef]
    tagsFor := fun _ => .ok [] }

/-- A concrete resource ARN naming log group `abc` with a trailing
modifier. -/
def sampleARN : ARN :=
  { region := "us-east-1", accountID := "123456789012", resource := "log-group:abc:*" }

/-- A concrete poller input with no continuation token. -/
def samplePollerInput : ResourcePollerInput :=
  { region := "us-west-2", accountID := "123456789012"
    integrationID := "int-1", nextPageToken := none }

/-- A service that lists one log group but fails every tag fetch. -/
def tagFailSvc : CloudWatchLogsAPI :=
  { pages := [[sampleLogGroup]], errTail := none
    byNameFilter := fun _ => .ok []
    tagsFor := fun _ => .error "throttled" }

/-- The snapshot produced from `sampleLogGroup` when tags come back
empty. -/
def snapSample : CloudWatchLogsLogGroup :=
  { resourceID := "arn:aws:logs:::log-group:sample"
    resourceType := cloudWatchLogGroupSchema
    timeCreated := 1583020800
    name := "sample"
    arn := "arn:aws:logs:::log-group:sample"
    kmsKeyId := none, metricFilterCount := none
    retentionInDays := none, storedBytes := none
    tags := [], region := none, accountID := none }

/-- If some listed group's snapshot build fails, the per-item
normalization loop fails as a whole (at the first failing item). -/
theorem snapshotEntries_error_of_mem (svc : CloudWatchLogsAPI)
    (pollerInput : ResourcePollerInput) (lg : LogGroup) (e0 : String)
    (hbuild : buildCloudWatchLogsLogGroupSnapshot svc lg = .error e0) :
    ∀ l, lg ∈ l → ∃ e1, snapshotEntries svc pollerInput l = .error e1 := by
  intro l
  induction l with
  | nil => intro h; simp at h
  | cons p rest ih =>
    intro hmem
    rcases List.mem_cons.mp hmem with heq | htail
    · subst heq
      exact ⟨e0, by simp [snapshotEntries, hbuild]⟩
    · match hb2 : buildCloudWatchLogsLogGroupSnapshot svc p with
      | .error e2 => exact ⟨e2, by simp [snapshotEntries, hb2]⟩
      | .ok snap =>
        obtain ⟨e1, h1⟩ := ih htail
        exact ⟨e1, by simp [snapshotEntries, hb2, h1]⟩

/-- C4: if the primary list call succeeds but the tag fetch fails for any
single listed group, `PollCloudWatchLogsLogGroups` returns an error with
a nil resource batch and nil token — no partial batch, and nothing
normalized before the failure is returned. -/
theorem pollLogGroups_tag_failure_aborts (svc : CloudWatchLogsAPI)
    (pollerInput : ResourcePollerInput) (b : Nat)
    (logGroups : List LogGroup) (marker : Option Nat) (lg : LogGroup) (e : String)
    (hd : describeLogGroups b svc pollerInput.nextPageToken = (logGroups, marker, none))
    (hmem : lg ∈ logGroups)
    (htag : svc.tagsFor lg.logGroupName = .error e) :
    ∃ msg, PollCloudWatchLogsLogGroups svc b pollerInput = ([], none, some msg) := by
  have hbuild : buildCloudWatchLogsLogGroupSnapshot svc lg =
      .error ("CloudWatchLogs ListTagsLogGroup: " ++ e) := by
    simp [buildCloudWatchLogsLogGroupSnapshot, listTagsLogGroup, htag]
  obtain ⟨e1, h1⟩ := snapshotEntries_error_of_mem svc pollerInput lg _ hbuild logGroups hmem
  exact ⟨e1, by simp [PollCloudWatchLogsLogGroups, hd, h1]⟩

/-- Witness for C4: one listed group whose tag fetch fails. -/
theorem pollLogGroups_tag_failure_aborts_witness :
    ∃ msg, PollCloudWatchLogsLogGroups tagFailSvc 5 samplePollerInput = ([], none, some msg) :=
  pollLogGroups_tag_failure_aborts tagFailSvc samplePollerInput 5
    [sampleLogGroup] none sampleLogGroup "throttled" rfl (by simp) rfl

/-- C5: when the name-filtered describe succeeds but no returned group
matches the requested name exactly (the group vanished), the
single-resource poll returns a nil resource and a nil error. -/
theorem pollLogGroup_not_found_ok (svc : CloudWatchLogsAPI) (resourceARN : ARN)
    (gs : List LogGroup)
    (hq : svc.byNameFilter (logGroupNameOfARN resourceARN) = .ok gs)
    (hnone : ∀ g ∈ gs, g.logGroupName ≠ logGroupNameOfARN resourceARN) :
    PollCloudWatchLogsLogGroup svc resourceARN = .ok none := by
  have hfind : gs.find?
      (fun lg => lg.logGroupName == logGroupNameOfARN resourceARN) = none := by
    rw [List.find?_eq_none]
    intro g hg
    simp only [beq_iff_eq]
    exact hnone g hg
  simp [PollCloudWatchLogsLogGroup, getLogGroup, hq, hfind]

/-- Witness for C5: the requested name `abc` only yields the
proper-extension match `abc-def`, so the poll returns `(nil, nil)`. -/
theorem pollLogGroup_not_found_ok_witness :
    PollCloudWatchLogsLogGroup svcNameFilter sampleARN = .ok none :=
  pollLogGroup_not_found_ok svcNameFilter sampleARN [gAbcDef] rfl (by decide)

/-- C6: the snapshot's creation timestamp is the provider's
millisecond-epoch `CreationTime` divided by 1000 with truncation toward
zero (Go integer division); in particular `1583020800123` normalizes to
exactly `1583020800` — not the raw millisecond value and not rounded up. -/
theorem snapshot_time_truncates_ms (svc : CloudWatchLogsAPI) (logGroup : LogGroup)
    (snapshot : CloudWatchLogsLogGroup)
    (h : buildCloudWatchLogsLogGroupSnapshot svc logGroup = .ok snapshot) :
    snapshot.timeCreated = Int.tdiv logGroup.creationTime 1000 ∧
    (logGroup.creationTime = 1583020800123 →
      snapshot.timeCreated = 1583020800 ∧
      snapshot.timeCreated ≠ 1583020800123 ∧
      snapshot.timeCreated ≠ 1583020801) := by
  have htc : snapshot.timeCreated = Int.tdiv logGroup.creationTime 1000 := by
    simp only [buildCloudWatchLogsLogGroupSnapshot] at h
    cases htags : listTagsLogGroup svc logGroup.logGroupName with
    | error e =>
      rw [htags] at h
      simp at h
    | ok tags =>
      rw [htags] at h
      simp only [Except.ok.injEq] at h
      rw [← h]
  refine ⟨htc, ?_⟩
  intro hms
  rw [htc, hms]
  refine ⟨by decide, by decide, by decide⟩

/-- Witness for C6: `sampleLogGroup` carries creation time
`1583020800123` and its snapshot records `1583020800`. -/
theorem snapshot_time_truncates_ms_witness :
    buildCloudWatchLogsLogGroupSnapshot (stubSvc [] none) sampleLogGroup = .ok snapSample ∧
    snapSample.timeCreated = 1583020800 ∧
    snapSample.timeCreated ≠ 1583020800123 ∧
    snapSample.timeCreated ≠ 1583020801 := by
  have h : buildCloudWatchLogsLogGroupSnapshot (stubSvc [] none) sampleLogGroup =
      .ok snapSample := rfl
  have h2 := (snapshot_time_truncates_ms (stubSvc [] none) sampleLogGroup snapSample h).2 rfl
  exact ⟨h, h2.1, h2.2.1, h2.2.2⟩

/-- C8: when the provider pagination fails on a page (and the ceiling was
not reached before the failing fetch), `describeLogGroups` returns nil
items and a nil token along with the wrapped error, and
`PollCloudWatchLogsLogGroups` propagates that error upward with a nil
batch and nil token — no token and no partial results are emitted. -/
theorem provider_error_no_partial (svc : CloudWatchLogsAPI) (b : Nat) (m : String)
    (pollerInput : ResourcePollerInput)
    (hm : svc.errTail = some m)
    (hnostop : ∀ j, j < svc.pages.length → ((svc.pages.take (j + 1)).flatten).length < b)
    (htok : pollerInput.nextPageToken = none) :
    describeLogGroups b svc none = ([], none, some (wrapDescribeErr m)) ∧
    PollCloudWatchLogsLogGroups svc b pollerInput = ([], none, some (wrapDescribeErr m)) := by
  have hdesc0 : describeLogGroups b svc none =
      pagesLoop b svc.errTail (svc.pages.drop 0) 0 [] := rfl
  have hD : describeLogGroups b svc none = ([], none, some (wrapDescribeErr m)) := by
    rcases pagesLoop_spec b svc.errTail (svc.pages.drop 0) 0 [] with
      ⟨he, -, -⟩ | ⟨k, hk, -, -, hge, -⟩ | ⟨m2, hm2, hres, -⟩
    · rw [he] at hm
      exact absurd hm (by simp)
    · exfalso
      simp only [List.drop_zero, List.length_nil, Nat.zero_add] at hk hge
      have := hnostop k hk
      omega
    · have hmm : m2 = m := by
        have h12 := hm2.symm.trans hm
        injection h12
      subst hmm
      rw [hdesc0, hres]
  refine ⟨hD, ?_⟩
  simp only [PollCloudWatchLogsLogGroups, htok, hD]

/-- Witness for C8: one page followed by a provider failure, ceiling 5. -/
theorem provider_error_no_partial_witness :
    describeLogGroups 5 (stubSvc [[sampleLogGroup]] (some "throttled")) none =
      ([], none, some (wrapDescribeErr "throttled")) ∧
    PollCloudWatchLogsLogGroups (stubSvc [[sampleLogGroup]] (some "throttled")) 5
      samplePollerInput = ([], none, some (wrapDescribeErr "throttled")) := by
  refine provider_error_no_partial (stubSvc [[sampleLogGroup]] (some "throttled")) 5
    "throttled" samplePollerInput rfl ?_ rfl
  intro j hj
  simp only [stubSvc] at hj ⊢
  simp only [List.length_singleton] at hj
  have hj0 : j = 0 := by omega
  subst hj0
  decide

/-- C10: `getLogGroup` returns a log group only when its `LogGroupName`
equals the requested name character for character; when the
prefix-filtered query succeeds but nothing matches exactly, it returns
`(nil, nil)` rather than the first prefix match — concretely, a query for
`abc` answered only by the proper extension `abc-def` yields `(nil, nil)`. -/
theorem getLogGroup_exact_match_only :
    (∀ (svc : CloudWatchLogsAPI) (name : String) (lg : LogGroup),
      getLogGroup svc name = .ok (some lg) → lg.logGroupName = name) ∧
    (∀ (svc : CloudWatchLogsAPI) (name : String) (gs : List LogGroup),
      svc.byNameFilter name = .ok gs → (∀ g ∈ gs, g.logGroupName ≠ name) →
      getLogGroup svc name = .ok none) ∧
    getLogGroup svcNameFilter "abc" = .ok none := by
  refine ⟨?_, ?_, ?_⟩
  · intro svc name lg h
    unfold getLogGroup at h
    cases hq : svc.byNameFilter name with
    | error e =>
      rw [hq] at h
      simp at h
    | ok gs =>
      rw [hq] at h
      simp only [Except.ok.injEq] at h
      have hp := List.find?_some h
      simpa using hp
  · intro svc name gs hq hnone
    have hfind : gs.find? (fun g => g.logGroupName == name) = none := by
      rw [List.find?_eq_none]
      intro g hg
      simp only [beq_iff_eq]
      exact hnone g hg
    simp [getLogGroup, hq, hfind]
  · rfl

/-- Witness for C10: an exact-name query does return the group, and the
theorem recovers that its name equals the query. -/
theorem getLogGroup_exact_match_only_witness :
    gAbcDef.logGroupName = "abc-def" :=
  getLogGroup_exact_match_only.1 svcNameFilter "abc-def" gAbcDef rfl

/-- Modelled from the spec: the bounded client / region-lookup caches of
§4.2.  The cache implementation itself (the external hashicorp golang-lru
package, constructed by `resetCaches` in the sampled test file) is not
among the sampled source files; this follows the spec's words: a bounded
key→value cache whose eviction is exact least-recently-used — entries
kept most-recent first, a hit refreshes recency, and an insert beyond
capacity discards the least-recently-used entry. -/
structure LRUCache (K V : Type) where
  capacity : Nat
  entries : List (K × V)
deriving DecidableEq, Repr

/-- A fresh empty cache of the given capacity. -/
def lruEmpty (K V : Type) (capacity : Nat) : LRUCache K V :=
  ⟨capacity, []⟩

/-- Insert (or refresh) a key: it becomes most recent; beyond capacity
the least-recently-used tail entry is discarded. -/
def lruPut {K V : Type} [DecidableEq K] (c : LRUCache K V) (k : K) (v : V) :
    LRUCache K V :=
  ⟨c.capacity, ((k, v) :: c.entries.filter (fun p => decide ¬(p.1 = k))).take c.capacity⟩

/-- Look a key up; a hit returns its value and refreshes its recency
rank (moves it to the front). -/
def lruGet {K V : Type} [DecidableEq K] (c : LRUCache K V) (k : K) :
    Option V × LRUCache K V :=
  match c.entries.find? (fun p => decide (p.1 = k)) with
  | none => (none, c)
  | some pv =>
    (some pv.2, ⟨c.capacity, (k, pv.2) :: c.entries.filter (fun p => decide ¬(p.1 = k))⟩)

/-- The cached keys, most recent first. -/
def lruKeys {K V : Type} (c : LRUCache K V) : List K :=
  c.entries.map Prod.fst

/-- Insert a sequence of keys in order (unit values). -/
def lruPutAll {K : Type} [DecidableEq K] (c : LRUCache K Unit) (ks : List K) :
    LRUCache K Unit :=
  ks.foldl (fun c2 k => lruPut c2 k ()) c

/-- A cache whose entries are exactly the given keys (most recent
first), with unit values. -/
def cacheOfKeys {K : Type} (capacity : Nat) (ks : List K) : LRUCache K Unit :=
  ⟨capacity, ks.map (fun k => (k, ()))⟩

theorem filter_ne_entries_of_not_mem {K V : Type} [DecidableEq K] (k : K) :
    ∀ (l : List (K × V)), k ∉ l.map Prod.fst →
      l.filter (fun p => decide ¬(p.1 = k)) = l := by
  intro l hl
  rw [List.filter_eq_self]
  intro p hp
  simp only [decide_eq_true_eq]
  intro hpe
  exact hl (by rw [← hpe]; exact List.mem_map_of_mem Prod.fst hp)

theorem filter_ne_keys_of_not_mem {K : Type} [DecidableEq K] (k : K) :
    ∀ (l : List K), k ∉ l → l.filter (fun x => decide ¬(x = k)) = l := by
  intro l hl
  rw [List.filter_eq_self]
  intro x hx
  simp only [decide_eq_true_eq]
  intro hxe
  exact hl (hxe ▸ hx)

theorem lruPut_fresh {K : Type} [DecidableEq K] (capacity : Nat) (l : List K) (k : K)
    (hk : k ∉ l) :
    lruPut (cacheOfKeys capacity l) k () =
      cacheOfKeys capacity ((k :: l).take capacity) := by
  have hfilter : (l.map (fun k2 => (k2, ()))).filter (fun p => decide ¬(p.1 = k)) =
      l.map (fun k2 => (k2, ())) := by
    apply filter_ne_entries_of_not_mem
    simpa using hk
  simp only [lruPut, cacheOfKeys, hfilter, LRUCache.mk.injEq, true_and]
  rw [List.map_take]
  rfl

theorem lruGet_hit {K : Type} [DecidableEq K] (capacity : Nat) (l : List K) (k : K)
    (hk : k ∈ l) :
    lruGet (cacheOfKeys capacity l) k =
      (some (), cacheOfKeys capacity (k :: l.filter (fun x => decide ¬(x = k)))) := by
  have hsome : ((l.find? (fun x => decide (x = k)))).isSome := by
    rw [List.find?_isSome]
    exact ⟨k, hk, by simp⟩
  obtain ⟨x, hx⟩ := Option.isSome_iff_exists.mp hsome
  have hxk : x = k := by
    have := List.find?_some hx
    simpa using this
  rw [hxk] at hx
  have hfind : (l.map (fun k2 => (k2, ()))).find? (fun p => decide (p.1 = k)) =
      some (k, ()) := by
    rw [List.find?_map]
    have hcomp : ((fun p : K × Unit => decide (p.1 = k)) ∘ (fun k2 => (k2, ()))) =
        fun x => decide (x = k) := rfl
    rw [hcomp, hx]
    rfl
  have hfilter : (l.map (fun k2 => (k2, ()))).filter (fun p => decide ¬(p.1 = k)) =
      (l.filter (fun x => decide ¬(x = k))).map (fun k2 => (k2, ())) := by
    rw [List.filter_map]
    rfl
  simp only [lruGet, cacheOfKeys, hfind, hfilter]
  rfl

theorem take_absorb {K : Type} (n : Nat) (a b2 : List K) :
    (a ++ b2.take n).take n = (a ++ b2).take n := by
  rw [List.take_append_eq_append_take, List.take_append_eq_append_take, List.take_take,
    Nat.min_eq_left (Nat.sub_le n a.length)]

theorem lruPutAll_fresh {K : Type} [DecidableEq K] (capacity : Nat) :
    ∀ (ks l : List K), ks.Nodup → (∀ k ∈ ks, k ∉ l) → l.length ≤ capacity →
      lruPutAll (cacheOfKeys capacity l) ks =
        cacheOfKeys capacity ((ks.reverse ++ l).take capacity) := by
  intro ks
  induction ks with
  | nil =>
    intro l _ _ hlen
    simp only [lruPutAll, List.foldl_nil, List.reverse_nil, List.nil_append]
    rw [List.take_of_length_le hlen]
  | cons k ks ih =>
    intro l hnd hfresh hlen
    have hk : k ∉ l := hfresh k (List.mem_cons_self k ks)
    have hstep : lruPutAll (cacheOfKeys capacity l) (k :: ks) =
        lruPutAll (lruPut (cacheOfKeys capacity l) k ()) ks := rfl
    rw [hstep, lruPut_fresh capacity l k hk]
    have hnd2 := (List.nodup_cons.mp hnd).2
    have hkks := (List.nodup_cons.mp hnd).1
    have hfresh2 : ∀ k2 ∈ ks, k2 ∉ (k :: l).take capacity := by
      intro k2 hk2 hmem
      have hmem2 : k2 ∈ k :: l := List.take_subset _ _ hmem
      rcases List.mem_cons.mp hmem2 with heq | hin
      · exact hkks (heq ▸ hk2)
      · exact hfresh k2 (List.mem_cons_of_mem k hk2) hin
    have hlen2 : ((k :: l).take capacity).length ≤ capacity := by
      rw [List.length_take]
      exact Nat.min_le_left _ _
    rw [ih ((k :: l).take capacity) hnd2 hfresh2 hlen2]
    congr 1
    rw [take_absorb]
    congr 1
    simp [List.append_assoc]

theorem lruKeys_cacheOfKeys {K : Type} (capacity : Nat) (ks : List K) :
    lruKeys (cacheOfKeys capacity ks) = ks := by
  simp only [lruKeys, cacheOfKeys, List.map_map]
  have hid : (Prod.fst ∘ fun k : K => (k, ())) = id := rfl
  rw [hid, List.map_id]

/-- C7: the modelled caches evict by exact LRU — filling an empty
capacity-`c` cache with `c + 1` distinct keys evicts exactly the first
(least recently used) key and no other; and after filling to capacity, a
hit on the oldest key refreshes its recency, so the next insertion of a
fresh key evicts the second-oldest key instead while the re-accessed key
and the new key stay resident. -/
theorem lru_eviction_exact {K : Type} [DecidableEq K] :
    (∀ (capacity : Nat) (k0 : K) (rest : List K),
      rest.length = capacity → (k0 :: rest).Nodup →
      lruKeys (lruPutAll (lruEmpty K Unit capacity) (k0 :: rest)) = rest.reverse ∧
      k0 ∉ lruKeys (lruPutAll (lruEmpty K Unit capacity) (k0 :: rest)) ∧
      ∀ k ∈ rest, k ∈ lruKeys (lruPutAll (lruEmpty K Unit capacity) (k0 :: rest))) ∧
    (∀ (k0 k1 knew : K) (mid : List K),
      (knew :: k0 :: k1 :: mid).Nodup →
      (lruGet (lruPutAll (lruEmpty K Unit (mid.length + 2)) (k0 :: k1 :: mid)) k0).1 =
        some () ∧
      lruKeys (lruPut
          (lruGet (lruPutAll (lruEmpty K Unit (mid.length + 2)) (k0 :: k1 :: mid)) k0).2
          knew ()) = knew :: k0 :: mid.reverse ∧
      k0 ∈ lruKeys (lruPut
          (lruGet (lruPutAll (lruEmpty K Unit (mid.length + 2)) (k0 :: k1 :: mid)) k0).2
          knew ()) ∧
      knew ∈ lruKeys (lruPut
          (lruGet (lruPutAll (lruEmpty K Unit (mid.length + 2)) (k0 :: k1 :: mid)) k0).2
          knew ()) ∧
      k1 ∉ lruKeys (lruPut
          (lruGet (lruPutAll (lruEmpty K Unit (mid.length + 2)) (k0 :: k1 :: mid)) k0).2
          knew ())) := by
  constructor
  · -- Scenario A: capacity + 1 distinct inserts into an empty cache
    intro capacity k0 rest hlen hnd
    have hempty : lruEmpty K Unit capacity = cacheOfKeys capacity ([] : List K) := rfl
    have hput := lruPutAll_fresh capacity (k0 :: rest) [] hnd (by simp) (by simp)
    have htake : ((k0 :: rest).reverse ++ []).take capacity = rest.reverse := by
      rw [List.append_nil, List.reverse_cons, List.take_append_eq_append_take]
      have h1 : rest.reverse.length = capacity := by rw [List.length_reverse, hlen]
      rw [List.take_of_length_le (le_of_eq h1), h1, Nat.sub_self]
      simp
    have hkeys : lruKeys (lruPutAll (lruEmpty K Unit capacity) (k0 :: rest)) =
        rest.reverse := by
      rw [hempty, hput, lruKeys_cacheOfKeys]
      exact htake
    refine ⟨hkeys, ?_, ?_⟩
    · rw [hkeys, List.mem_reverse]
      exact (List.nodup_cons.mp hnd).1
    · intro k hk
      rw [hkeys, List.mem_reverse]
      exact hk
  · -- Scenario B: fill to capacity, hit the oldest key, insert a fresh key
    intro k0 k1 knew mid hnd
    have hnd1 := List.nodup_cons.mp hnd
    have hknew := hnd1.1
    have hnd2 := List.nodup_cons.mp hnd1.2
    have hk0 := hnd2.1
    have hnd3 := List.nodup_cons.mp hnd2.2
    have hk1mid := hnd3.1
    have hempty : lruEmpty K Unit (mid.length + 2) =
        cacheOfKeys (mid.length + 2) ([] : List K) := rfl
    have hc1 : lruPutAll (lruEmpty K Unit (mid.length + 2)) (k0 :: k1 :: mid) =
        cacheOfKeys (mid.length + 2) ((k0 :: k1 :: mid).reverse) := by
      rw [hempty, lruPutAll_fresh (mid.length + 2) _ [] hnd1.2 (by simp) (by simp)]
      congr 1
      rw [List.append_nil]
      apply List.take_of_length_le
      simp only [List.length_reverse, List.length_cons]
      omega
    have hmem : k0 ∈ (k0 :: k1 :: mid).reverse := by simp
    have hget := lruGet_hit (mid.length + 2) ((k0 :: k1 :: mid).reverse) k0 hmem
    have hfilterB : ((k0 :: k1 :: mid).reverse).filter (fun x => decide ¬(x = k0)) =
        (k1 :: mid).reverse := by
      rw [List.reverse_cons, List.filter_append,
        filter_ne_keys_of_not_mem k0 ((k1 :: mid).reverse)
          (by simp only [List.mem_reverse]; exact hk0)]
      simp
    rw [hfilterB] at hget
    have hget2 : lruGet (lruPutAll (lruEmpty K Unit (mid.length + 2)) (k0 :: k1 :: mid)) k0 =
        (some (), cacheOfKeys (mid.length + 2) (k0 :: (k1 :: mid).reverse)) := by
      rw [hc1, hget]
    have hc2 : (lruGet (lruPutAll (lruEmpty K Unit (mid.length + 2)) (k0 :: k1 :: mid)) k0).2 =
        cacheOfKeys (mid.length + 2) (k0 :: (k1 :: mid).reverse) := by
      rw [hget2]
    have hknew2 : knew ∉ k0 :: (k1 :: mid).reverse := by
      simp only [List.mem_cons, List.mem_reverse] at hknew ⊢
      tauto
    have hput2 := lruPut_fresh (mid.length + 2) (k0 :: (k1 :: mid).reverse) knew hknew2
    have htake2 : (knew :: k0 :: (k1 :: mid).reverse).take (mid.length + 2) =
        knew :: k0 :: mid.reverse := by
      rw [List.reverse_cons]
      have hform : knew :: k0 :: (mid.reverse ++ [k1]) =
          (knew :: k0 :: mid.reverse) ++ [k1] := by simp
      rw [hform, List.take_append_eq_append_take]
      have hlen3 : (knew :: k0 :: mid.reverse).length = mid.length + 2 := by
        simp only [List.length_cons, List.length_reverse]
      rw [List.take_of_length_le (le_of_eq hlen3), hlen3, Nat.sub_self]
      simp
    have hkeysB : lruKeys (lruPut
        (lruGet (lruPutAll (lruEmpty K Unit (mid.length + 2)) (k0 :: k1 :: mid)) k0).2
        knew ()) = knew :: k0 :: mid.reverse := by
      rw [hc2, hput2, lruKeys_cacheOfKeys]
      exact htake2
    have h1 : k1 ≠ knew := by
      intro h
      exact hknew (by rw [← h]; simp)
    have h2 : k1 ≠ k0 := by
      intro h
      exact hk0 (by rw [← h]; exact List.mem_cons_self _ _)
    refine ⟨by rw [hget2], hkeysB, ?_, ?_, ?_⟩
    · rw [hkeysB]; simp
    · rw [hkeysB]; simp
    · rw [hkeysB]
      simp only [List.mem_cons, List.mem_reverse]
      push_neg
      exact ⟨h1, h2, hk1mid⟩

/-- Witness for C7: capacity 2.  Inserting `0,1,2` leaves `[2,1]` (key 0,
the LRU, evicted).  Filling with `5,6`, hitting `5`, then inserting `9`
leaves `[9,5]` — the refreshed key 5 survives and key 6 is evicted. -/
theorem lru_eviction_exact_witness :
    lruKeys (lruPutAll (lruEmpty Nat Unit 2) [0, 1, 2]) = [2, 1] ∧
    (lruGet (lruPutAll (lruEmpty Nat Unit 2) [5, 6]) 5).1 = some () ∧
    lruKeys (lruPut (lruGet (lruPutAll (lruEmpty Nat Unit 2) [5, 6]) 5).2 9 ()) = [9, 5] := by
  have hA := (lru_eviction_exact (K := Nat)).1 2 0 [1, 2] rfl (by decide)
  have hB := (lru_eviction_exact (K := Nat)).2 5 6 9 [] (by decide)
  exact ⟨hA.1, hB.1, hB.2.1⟩

/-- Witness for C3: one page of one item against ceiling 10. -/
theorem describeLogGroups_whole_pages_witness :
    ∃ m, m ≤ (stubSvc [[sampleLogGroup]] none).pages.length ∧
      [sampleLogGroup] = ((stubSvc [[sampleLogGroup]] none).pages.take m).flatten ∧
      ∀ j, j + 1 < m →
        (((stubSvc [[sampleLogGroup]] none).pages.take (j + 1)).flatten).length < 10 :=
  describeLogGroups_whole_pages.1 10 (stubSvc [[sampleLogGroup]] none)
    [sampleLogGroup] none rfl rfl
